import Mathlib

/-!
Shallow embedding of `yt_astro_analysis/halo_analysis/halo_callbacks.py`.

The three callbacks `halo_sphere`, `profile` and `virial_quantities` are
translated into pure Lean functions.  Python dictionaries become association
lists (`List (κ × ν)`) with first-match lookup and replace-first-or-append
assignment, which matches `dict` semantics on duplicate-free key lists.
Numpy arrays become `List ℚ`; rational numbers model the (always finite)
float values flowing through the control flow.  The transcendental routines
`np.log` / `np.exp` and the unit-conversion machinery of the external `yt`
layer are parameters of the embedding (fields of an environment record), as
they belong to external collaborators.  Exceptions raised by the Python code
are modelled explicitly: each callback returns its mutated state together
with an optional error, reflecting that in Python the mutations performed
before a `raise` survive the exception.
-/

namespace HaloCallbacks

/-! ### Association lists (Python `dict` model) -/

/-- First-match lookup in an association list (Python `d[k]` / `k in d`). -/
def lookupA [DecidableEq α] : List (α × β) → α → Option β
  | [], _ => none
  | p :: l, k => if p.1 = k then some p.2 else lookupA l k

/-- Replace-first-or-append assignment (Python `d[k] = v`). -/
def setA [DecidableEq α] : List (α × β) → α → β → List (α × β)
  | [], k, v => [(k, v)]
  | p :: l, k, v => if p.1 = k then (k, v) :: l else p :: setA l k v

/-- Merge the entries of `new` into `old`, later entries winning
(Python `old.update(new)`). -/
def updateA [DecidableEq α] (old new : List (α × β)) : List (α × β) :=
  new.foldl (fun acc p => setA acc p.1 p.2) old

/-- Last-match lookup; the value an iterated `setA` over the list ends with. -/
def lastLookup [DecidableEq α] (l : List (α × β)) (k : α) : Option β :=
  l.foldl (fun acc p => if p.1 = k then some p.2 else acc) none

/-- The keys of an association list are pairwise distinct (dict invariant). -/
def NodupKeys (l : List (α × β)) : Prop := (l.map Prod.fst).Nodup

instance [DecidableEq α] (l : List (α × β)) : Decidable (NodupKeys l) := by
  unfold NodupKeys
  infer_instance

/-! ### Numpy array helpers -/

/-- Boolean-mask extraction (`a[mask]`). -/
def maskSelect : List α → List Bool → List α
  | [], _ => []
  | _, [] => []
  | x :: xs, b :: m => if b then x :: maskSelect xs m else maskSelect xs m

/-- Boolean-mask assignment (`a[mask] = vs`): the entries of `vs` are
scattered, in order, into the positions where the mask is `true`. -/
def maskAssign : List α → List Bool → List α → List α
  | [], _, _ => []
  | xs, [], _ => xs
  | x :: xs, b :: m, vs =>
    if b then
      match vs with
      | [] => x :: maskAssign xs m []
      | v :: vs => v :: maskAssign xs m vs
    else x :: maskAssign xs m vs

/-- Running sums starting from accumulator `a`. -/
def cumsumFrom (a : ℚ) : List ℚ → List ℚ
  | [] => []
  | x :: xs => (a + x) :: cumsumFrom (a + x) xs

/-- `np.cumsum`. -/
def cumsum (xs : List ℚ) : List ℚ := cumsumFrom 0 xs

/-- Number of `true` entries of a boolean mask (`mask.sum()`). -/
def countTrue : List Bool → ℕ
  | [] => 0
  | b :: m => (if b then 1 else 0) + countTrue m

/-- All entries satisfy the boolean predicate (`(cond).all()`). -/
def allB (p : α → Bool) : List α → Bool
  | [] => true
  | x :: l => p x && allB p l

/-- Index of the first entry satisfying `p` (`np.where(cond)[0][0]`,
`none` when `np.where` returns an empty index array). -/
def findIdxQ (p : α → Bool) : List α → Option ℕ
  | [] => none
  | x :: l => if p x then some 0 else (findIdxQ p l).map (· + 1)

/-! ### `halo_sphere` (lines 48-73) -/

/-- A spherical region built by `dpf.h.sphere(center, (radius, "code_length"))`:
the external dataset records the centre triple and the radius/unit pair. -/
structure Region where
  center : ℚ × ℚ × ℚ
  radius : ℚ × String
deriving DecidableEq, Repr

/-- The slice of a halo that `halo_sphere` touches: the scalar-quantities
mapping and the optionally attached spatial region. -/
structure SHalo where
  quantities : List (String × ℚ)
  data_object : Option Region
deriving DecidableEq, Repr

/-- `halo_sphere(halo, radius_field, factor)`: read the three position
quantities and the radius quantity, divide by the dataset length unit,
build the sphere and attach it as `data_object`.  A missing key raises
`KeyError` (returned as the error component, halo unchanged). -/
def halo_sphere (length_unit : ℚ) (halo : SHalo)
    (radius_field : String) (factor : ℚ) : SHalo × Option String :=
  match lookupA halo.quantities "particle_position_x",
        lookupA halo.quantities "particle_position_y",
        lookupA halo.quantities "particle_position_z" with
  | some px, some py, some pz =>
    match lookupA halo.quantities radius_field with
    | some r =>
      let center := (px / length_unit, py / length_unit, pz / length_unit)
      let radius := factor * r / length_unit
      ({ halo with data_object := some ⟨center, (radius, "code_length")⟩ }, none)
    | none => (halo, some "KeyError")
  | _, _, _ => (halo, some "KeyError")

/-! ### `profile` (lines 77-164) -/

/-- A field key, a `("type", "name")` tuple as used by the `yt` field system. -/
abbrev FieldKey := String × String

/-- A profiled per-bin array together with the physical units attached to it
(`dpf.arr(values, units)`). -/
structure ProfArr where
  values : List ℚ
  units : String
deriving DecidableEq, Repr

/-- A halo profile-storage slot: the `"used"` boolean mask plus the per-field
bin arrays.  In the Python dict the mask lives under the string key `"used"`
and the arrays under tuple keys, so the two can never collide; here they are
separate record fields. -/
structure ProfileData where
  used : List Bool
  fields : List (FieldKey × ProfArr)
deriving DecidableEq, Repr

/-- The arguments `profile` hands to the external binning engine
(`Profile1D(halo.data_object, x_field, x_bins, x_range[0], x_range[1],
x_log, weight_field)` followed by `add_fields(y_fields)`). -/
structure EngineArgs where
  x_field : FieldKey
  x_bins : ℕ
  x_min : ℚ
  x_max : ℚ
  range_units : String
  x_log : Bool
  weight_field : Option String
  y_fields : List FieldKey
deriving DecidableEq, Repr

/-- The output of the external binning engine: bin centres `x` (with their
units), the per-field aggregated arrays, the `"used"` mask, and the 2-D
per-bin weight array. -/
structure EngineOut where
  x : List ℚ
  x_units : String
  field_data : List (FieldKey × List ℚ)
  used : List Bool
  weight : List (List ℚ)

/-- External collaborators of `profile`: the dataset field registry
(`dpf.field_info[field].units`) and the unit-dimension test performed by
`x_range[0]._unit_repr_check_same("cm")` (`true` when the unit is
length-convertible, in which case no `YTUnitConversionError` is raised). -/
structure PEnv where
  field_units : FieldKey → String
  cmConvertible : String → Bool

/-- The accumulation step of `profile` (lines 139-150): on the bins marked
used, replace the field values by their running cumulative sum; when a
weight field is given, by the weight-normalised cumulative sum using
`my_weight = my_profile.weight[:, 0]`. -/
def accumulateArr (weight_field : Option String) (used : List Bool)
    (myWeight : List ℚ) (vals : List ℚ) : List ℚ :=
  match weight_field with
  | none => maskAssign vals used (cumsum (maskSelect vals used))
  | some _ =>
    maskAssign vals used
      (List.zipWith (· / ·)
        (cumsum (List.zipWith (· * ·) (maskSelect vals used) (maskSelect myWeight used)))
        (cumsum (maskSelect myWeight used)))

/-- The storage step of `profile` (lines 157-164): if the slot exists,
intersect its `"used"` mask with the new one and merge in the new arrays;
otherwise create the slot fresh. -/
def storeProfile (slot : Option ProfileData) (used : List Bool)
    (prof_store : List (FieldKey × ProfArr)) : ProfileData :=
  match slot with
  | some s => ⟨List.zipWith (· && ·) s.used used, updateA s.fields prof_store⟩
  | none => ⟨used, updateA [] prof_store⟩

/-- The storage dictionary assembled by `profile` (lines 134-155): the
engine's field arrays with their physical units re-attached, optionally
accumulated, plus the binning field's own array under its own key. -/
def profStoreOf (env : PEnv) (prof : EngineOut) (x_field : FieldKey)
    (weight_field : Option String) (accumulation : Bool) :
    List (FieldKey × ProfArr) :=
  -- re-attach physical units to each aggregated array
  let withUnits : List (FieldKey × ProfArr) :=
    prof.field_data.map fun p => (p.1, ⟨p.2, env.field_units p.1⟩)
  -- accumulate, if necessary
  let myWeight := prof.weight.map fun row => row.getD 0 0
  let accArrs :=
    if accumulation then
      withUnits.map fun p =>
        (p.1, ProfArr.mk (accumulateArr weight_field prof.used myWeight p.2.values) p.2.units)
    else withUnits
  -- create storage dictionary, adding the binning field's own array
  setA accArrs x_field ⟨prof.x, prof.x_units⟩

/-- `profile(halo, x_field, y_fields, ...)`.  The external `Profile1D`
engine is a function parameter; `extrema` is the value of
`halo.data_object.quantities["Extrema"](x_field)[0]` together with its
unit.  Returns the new contents of the halo's storage slot, or the error
raised (`RuntimeError` when the extrema turn out to be length-convertible,
see the temporary-check comment in the source). -/
def profile (env : PEnv) (engine : EngineArgs → EngineOut)
    (extrema : (ℚ × ℚ) × String) (x_field : FieldKey) (y_fields : List FieldKey)
    (x_bins : ℕ) (x_range : Option ((ℚ × ℚ) × String)) (x_log : Bool)
    (weight_field : Option String) (accumulation : Bool)
    (slot : Option ProfileData) : Except String ProfileData :=
  let xr : Except String ((ℚ × ℚ) × String) :=
    match x_range with
    | some r => .ok r
    | none =>
      if env.cmConvertible extrema.2 then
        .error "RuntimeError: Looks like derived quantities have been fixed.  Fix this code!"
      else
        -- for now, Extrema return dimensionless, but reinterpret as "cm"
        .ok (extrema.1, "cm")
  match xr with
  | .error e => .error e
  | .ok r =>
    let prof := engine ⟨x_field, x_bins, r.1.1, r.1.2, r.2, x_log, weight_field, y_fields⟩
    .ok (storeProfile slot prof.used
      (profStoreOf env prof x_field weight_field accumulation))

/-! ### `virial_quantities` (lines 168-248) -/

/-- External collaborators of `virial_quantities`: the float `np.log` and
`np.exp` routines and the unit conversion `value.in_units(target)` of the
`yt` quantity layer (`convert fromUnits toUnits value`). -/
structure VEnv where
  rlog : ℚ → ℚ
  rexp : ℚ → ℚ
  convert : String → String → ℚ → ℚ

/-- The derived-quantity name `"%s_%d" % (field_key, critical_overdensity)`. -/
def qname (k : FieldKey) (critical : ℤ) : String :=
  "(" ++ k.1 ++ ", " ++ k.2 ++ ")_" ++ toString critical

/-- `np.isfinite` on a float: rationals model finite floats, so this is
always `true`; kept to mirror the structure of the source filter. -/
def isFiniteQ (_ : ℚ) : Bool := true

/-- The bin validity filter of line 210:
`np.isfinite(overdensity) & profile_data["used"] & (overdensity > 0)`. -/
def dfilterOf (od : List ℚ) (used : List Bool) : List Bool :=
  List.zipWith (fun x u => isFiniteQ x && u && decide (0 < x)) od used

/-- First downward crossing of the threshold (line 236):
`np.where((vod[:-1] >= c) & (vod[1:] < c))[0][0]`, `none` when the index
array is empty (in which case Python raises `IndexError`). -/
def findCrossing (vod : List ℚ) (c : ℚ) : Option ℕ :=
  findIdxQ (fun p => decide (c ≤ p.1) && decide (p.2 < c)) (List.zip vod vod.tail)

/-- Result of the interpolation-index selection of lines 222-237. -/
inductive VIndex where
  /-- No crossing inferable: write the zero sentinels and return. -/
  | sentinel
  /-- `np.where(...)[0][0]` on an empty index array: `IndexError`. -/
  | ierror
  /-- Interpolate between bins `i` and `i+1` of the filtered arrays. -/
  | idx (i : ℕ)
deriving DecidableEq, Repr

/-- The interpolation-index selection of lines 222-237, on the filtered
overdensity values `vod` (only reached when `vod` has at least 2 entries;
the Python indices `-1`, `-2` become `length - 1`, `length - 2`). -/
def selectIndex (vod : List ℚ) (c : ℚ) : VIndex :=
  if allB (fun x => decide (c < x)) vod then
    if vod.getD (vod.length - 1) 0 < vod.getD (vod.length - 2) 0 then
      .idx (vod.length - 2)
    else .sentinel
  else if allB (fun x => decide (x < c)) vod then
    if vod.getD 1 0 < vod.getD 0 0 then .idx 0 else .sentinel
  else
    match findCrossing vod c with
    | some i => .idx i
    | none => .ierror

/-- The two-point log-log interpolation of lines 241-244 on the filtered
arrays: `slope = log(v[i+1]/v[i]) / log(vod[i+1]/vod[i])`, value
`exp(slope * log(c / vod[i])) * v[i]`. -/
def interpValue (env : VEnv) (critical : ℤ) (vod : List ℚ) (i : ℕ)
    (vprof : List ℚ) : ℚ :=
  let slope := env.rlog (vprof.getD (i + 1) 0 / vprof.getD i 0) /
    env.rlog (vod.getD (i + 1) 0 / vod.getD i 0)
  env.rexp (slope * env.rlog ((critical : ℚ) / vod.getD i 0)) * vprof.getD i 0

/-- Lines 194-197: append each `("<field>_<critical>", "callback")` tuple to
the catalog's quantities list unless already present. -/
def registerQuantities (fields : List (FieldKey × String)) (critical : ℤ)
    (catQ : List (String × String)) : List (String × String) :=
  fields.foldl
    (fun acc f =>
      if (qname f.1 critical, "callback") ∈ acc then acc
      else acc ++ [(qname f.1 critical, "callback")])
    catQ

/-- The per-field loop of lines 239-246: look up each field's profile
(`KeyError` when absent), interpolate at the chosen index and store the
value, converted to the requested target unit, into `vquantities`. -/
def computeVQ (env : VEnv) (critical : ℤ) (pd : ProfileData) (m : List Bool)
    (vod : List ℚ) (i : ℕ) :
    List (FieldKey × String) → List (String × ℚ) → Except String (List (String × ℚ))
  | [], acc => .ok acc
  | f :: fs, acc =>
    match lookupA pd.fields f.1 with
    | none => .error "KeyError"
    | some arr =>
      computeVQ env critical pd m vod i fs
        (setA acc (qname f.1 critical)
          (env.convert arr.units f.2 (interpValue env critical vod i (maskSelect arr.values m))))

/-- Result of a `virial_quantities` invocation: the catalog's quantities
list, the halo's quantities mapping, and the error raised, if any.  The
first two always hold the post-invocation state, since in Python mutations
performed before a `raise` survive the exception. -/
structure VRes where
  catalog : List (String × String)
  haloq : List (String × ℚ)
  err : Option String
deriving DecidableEq, Repr

/-- `virial_quantities(halo, fields, critical_overdensity, ...)`.
`pd` is `getattr(halo, profile_storage)` (`none` models a missing storage
attribute, an `AttributeError`); `catQ` and `haloQ` are the catalog's
quantities list and the halo's quantities mapping on entry. -/
def virial_quantities (env : VEnv) (fields : List (FieldKey × String))
    (critical : ℤ) (pd? : Option ProfileData)
    (catQ : List (String × String)) (haloQ : List (String × ℚ)) : VRes :=
  let catQ2 := registerQuantities fields critical catQ
  match pd? with
  | none => ⟨catQ2, haloQ, some "AttributeError"⟩
  | some pd =>
    match lookupA pd.fields ("gas", "overdensity") with
    | none =>
      ⟨catQ2, haloQ,
        some "RuntimeError: virial_quantities callback requires profile of (gas, overdensity)."⟩
    | some od =>
      let dfilter := dfilterOf od.values pd.used
      let vq0 : List (String × ℚ) := fields.map fun f => (qname f.1 critical, 0)
      if countTrue dfilter < 2 then ⟨catQ2, updateA haloQ vq0, none⟩
      else
        let vod := maskSelect od.values dfilter
        match selectIndex vod (critical : ℚ) with
        | .sentinel => ⟨catQ2, updateA haloQ vq0, none⟩
        | .ierror => ⟨catQ2, haloQ, some "IndexError"⟩
        | .idx i =>
          match computeVQ env critical pd dfilter vod i fields vq0 with
          | .ok vq => ⟨catQ2, updateA haloQ vq, none⟩
          | .error e => ⟨catQ2, haloQ, some e⟩

/-! ### Statement-level definitions -/

/-- A downward crossing of the critical threshold between the adjacent
filtered bins `i` and `i+1`: overdensity at `i` is `≥ c` and at `i+1` is
`< c`. -/
def Crossing (vod : List ℚ) (c : ℚ) (i : ℕ) : Prop :=
  i + 1 < vod.length ∧ c ≤ vod.getD i 0 ∧ vod.getD (i + 1) 0 < c

instance (vod : List ℚ) (c : ℚ) (i : ℕ) : Decidable (Crossing vod c i) := by
  unfold Crossing
  infer_instance

/-- `Except` success test, used to state success/failure conditions. -/
def isOkE : Except ε α → Bool
  | .ok _ => true
  | .error _ => false

/-- A concrete environment used to evaluate `virial_quantities` on sample
data in the witnesses: identity stand-ins for the external log/exp and
unit-conversion routines. -/
def envW : VEnv := ⟨fun x => x, fun x => x, fun _ _ v => v⟩

/-- A concrete profile environment for evaluating `profile` on sample data:
every field gets the unit `"g/cm**3"` and no unit is cm-convertible. -/
def pEnvW : PEnv := ⟨fun _ => "g/cm**3", fun _ => false⟩

/-- A concrete engine output for evaluating `profile` on sample data:
two bins, one profiled field, both bins used, weight 2 in each bin. -/
def engOutW : EngineOut :=
  ⟨[1, 2], "cm", [((("gas", "density") : FieldKey), [3, 4])], [true, true], [[2], [2]]⟩

/-! ### Association-list lemmas -/

theorem lookupA_setA [DecidableEq α] (l : List (α × β)) (a k : α) (v : β) :
    lookupA (setA l a v) k = if a = k then some v else lookupA l k := by
  induction l with
  | nil => simp [setA, lookupA]
  | cons p t ih =>
    by_cases hp : p.1 = a
    · subst hp
      by_cases hk : p.1 = k
      · subst hk
        simp [setA, lookupA]
      · simp [setA, lookupA, hk]
    · by_cases hk : p.1 = k
      · subst hk
        have hak : ¬ a = p.1 := fun h => hp h.symm
        simp [setA, lookupA, hp, hak]
      · simp [setA, lookupA, hp, hk, ih]

theorem lastLookup_foldl_acc [DecidableEq α] (k : α) (t : List (α × β))
    (acc : Option β) :
    t.foldl (fun acc p => if p.1 = k then some p.2 else acc) acc =
      match t.foldl (fun acc p => if p.1 = k then some p.2 else acc) none with
      | some v => some v
      | none => acc := by
  induction t generalizing acc with
  | nil => simp
  | cons p t ih =>
    simp only [List.foldl_cons]
    by_cases hp : p.1 = k
    · rw [if_pos hp, if_pos hp, ih (some p.2)]
      cases t.foldl (fun acc p => if p.1 = k then some p.2 else acc) none <;> simp
    · rw [if_neg hp, if_neg hp, ih acc]

theorem lastLookup_cons [DecidableEq α] (p : α × β) (t : List (α × β)) (k : α) :
    lastLookup (p :: t) k =
      match lastLookup t k with
      | some v => some v
      | none => if p.1 = k then some p.2 else none := by
  show t.foldl (fun acc q => if q.1 = k then some q.2 else acc)
      (if p.1 = k then some p.2 else none) = _
  rw [lastLookup_foldl_acc]
  rfl

theorem lookupA_updateA [DecidableEq α] (l new : List (α × β)) (k : α) :
    lookupA (updateA l new) k =
      match lastLookup new k with
      | some v => some v
      | none => lookupA l k := by
  induction new generalizing l with
  | nil => simp [updateA, lastLookup]
  | cons p t ih =>
    have hstep : updateA l (p :: t) = updateA (setA l p.1 p.2) t := rfl
    rw [hstep, ih, lastLookup_cons]
    cases htl : lastLookup t k with
    | some v => simp
    | none =>
      simp only [lookupA_setA]
      by_cases hp : p.1 = k <;> simp [hp]

theorem lastLookup_mem [DecidableEq α] {l : List (α × β)} {k : α} {v : β}
    (h : lastLookup l k = some v) : (k, v) ∈ l := by
  induction l with
  | nil => simp [lastLookup] at h
  | cons p t ih =>
    rw [lastLookup_cons] at h
    cases htl : lastLookup t k with
    | some w =>
      rw [htl] at h
      simp only [Option.some.injEq] at h
      subst h
      exact List.mem_cons_of_mem _ (ih htl)
    | none =>
      rw [htl] at h
      by_cases hp : p.1 = k
      · subst hp
        simp at h
        subst h
        simp
      · simp [hp] at h

theorem lastLookup_isSome_of_mem [DecidableEq α] {l : List (α × β)} {k : α}
    (h : k ∈ l.map Prod.fst) : (lastLookup l k).isSome := by
  induction l with
  | nil => simp at h
  | cons p t ih =>
    rw [lastLookup_cons]
    cases htl : lastLookup t k with
    | some v => simp
    | none =>
      simp only [List.map_cons, List.mem_cons] at h
      rcases h with h | h
      · simp [h]
      · have := ih h
        rw [htl] at this
        simp at this

theorem lookupA_eq_some_of_allconst [DecidableEq α] {l new : List (α × β)}
    {k : α} {z : β} (hall : ∀ p ∈ new, p.2 = z) (hmem : k ∈ new.map Prod.fst) :
    lookupA (updateA l new) k = some z := by
  rw [lookupA_updateA]
  cases hll : lastLookup new k with
  | some v =>
    have hv : (k, v) ∈ new := lastLookup_mem hll
    have := hall _ hv
    simp at this
    simp [this]
  | none =>
    have := lastLookup_isSome_of_mem hmem
    rw [hll] at this
    simp at this

theorem lastLookup_eq_lookupA [DecidableEq α] {l : List (α × β)}
    (h : NodupKeys l) (k : α) : lastLookup l k = lookupA l k := by
  induction l with
  | nil => simp [lastLookup, lookupA]
  | cons p t ih =>
    have hni : p.1 ∉ t.map Prod.fst := by
      have h2 := h
      unfold NodupKeys at h2
      simp only [List.map_cons, List.nodup_cons] at h2
      exact h2.1
    have hnd : NodupKeys t := by
      have h2 := h
      unfold NodupKeys at h2
      simp only [List.map_cons, List.nodup_cons] at h2
      exact h2.2
    rw [lastLookup_cons, ih hnd]
    simp only [lookupA]
    by_cases hp : p.1 = k
    · subst hp
      cases htl : lookupA t p.1 with
      | some w =>
        exfalso
        apply hni
        have hm : (p.1, w) ∈ t := by
          rw [← ih hnd] at htl
          exact lastLookup_mem htl
        exact List.mem_map.mpr ⟨(p.1, w), hm, rfl⟩
      | none => simp
    · cases htl : lookupA t k <;> simp [hp]

theorem keys_setA [DecidableEq α] (l : List (α × β)) (a : α) (v : β) :
    (setA l a v).map Prod.fst =
      if a ∈ l.map Prod.fst then l.map Prod.fst else l.map Prod.fst ++ [a] := by
  induction l with
  | nil => simp [setA]
  | cons p t ih =>
    by_cases hp : p.1 = a
    · subst hp
      simp [setA]
    · have hpa : ¬ a = p.1 := fun h => hp h.symm
      rw [setA, if_neg hp]
      simp only [List.map_cons, ih]
      by_cases hm : a ∈ t.map Prod.fst
      · simp [hm, hpa]
      · simp [hm, hpa]

theorem nodupKeys_setA [DecidableEq α] {l : List (α × β)} (h : NodupKeys l)
    (a : α) (v : β) : NodupKeys (setA l a v) := by
  unfold NodupKeys at h ⊢
  rw [keys_setA]
  by_cases hm : a ∈ l.map Prod.fst
  · rwa [if_pos hm]
  · rw [if_neg hm]
    refine List.Nodup.append h (List.nodup_singleton a) ?_
    intro x hx hx2
    simp only [List.mem_singleton] at hx2
    subst hx2
    exact hm hx

theorem lookupA_mapVal [DecidableEq α] (g : α → β → γ) (l : List (α × β)) (k : α) :
    lookupA (l.map fun p => (p.1, g p.1 p.2)) k = (lookupA l k).map (g k) := by
  induction l with
  | nil => simp [lookupA]
  | cons p t ih =>
    rw [List.map_cons, lookupA, lookupA]
    by_cases hp : p.1 = k
    · subst hp
      simp
    · simp only [hp, if_false, ih]

theorem keys_mapVal (g : α → β → γ) (l : List (α × β)) :
    (l.map fun p => (p.1, g p.1 p.2)).map Prod.fst = l.map Prod.fst := by
  induction l with
  | nil => rfl
  | cons p t ih => simp [ih]

/-! ### Mask / cumulative-sum lemmas -/

theorem getD_cons_succ (x : α) (xs : List α) (n : ℕ) (d : α) :
    (x :: xs).getD (n + 1) d = xs.getD n d := rfl

theorem getD_cons_zero (x : α) (xs : List α) (d : α) :
    (x :: xs).getD 0 d = x := rfl

theorem getD_mem {l : List α} {i : ℕ} (h : i < l.length) (d : α) :
    l.getD i d ∈ l := by
  induction l generalizing i with
  | nil => simp at h
  | cons x xs ih =>
    cases i with
    | zero => simp [getD_cons_zero]
    | succ n =>
      rw [getD_cons_succ]
      exact List.mem_cons_of_mem _ (ih (by simpa using h))

theorem maskSelect_length {xs : List α} {m : List Bool}
    (h : m.length ≤ xs.length) : (maskSelect xs m).length = countTrue m := by
  induction xs generalizing m with
  | nil =>
    cases m with
    | nil => simp [maskSelect, countTrue]
    | cons b t => simp at h
  | cons x xs ih =>
    cases m with
    | nil => simp [maskSelect, countTrue]
    | cons b t =>
      have ht : t.length ≤ xs.length := by simpa using h
      cases b <;> (simp [maskSelect, countTrue, ih ht]; try omega)

theorem dfilterOf_length_le (od : List ℚ) (used : List Bool) :
    (dfilterOf od used).length ≤ od.length := by
  rw [dfilterOf, List.length_zipWith]
  omega

theorem maskSelect_maskAssign {xs : List α} {m : List Bool} {vs : List α}
    (hlen : xs.length = m.length) (hvs : vs.length = countTrue m) :
    maskSelect (maskAssign xs m vs) m = vs := by
  induction xs generalizing m vs with
  | nil =>
    cases m with
    | nil =>
      cases vs with
      | nil => simp [maskAssign, maskSelect]
      | cons v t => simp [countTrue] at hvs
    | cons b t => simp at hlen
  | cons x xs ih =>
    cases m with
    | nil => simp at hlen
    | cons b t =>
      have ht : xs.length = t.length := by simpa using hlen
      cases b with
      | true =>
        cases vs with
        | nil =>
          exfalso
          simp [countTrue] at hvs
          omega
        | cons v vt =>
          have hvt : vt.length = countTrue t := by
            simp [countTrue] at hvs
            omega
          simp [maskAssign, maskSelect, ih ht hvt]
      | false =>
        have hvt : vs.length = countTrue t := by simpa [countTrue] using hvs
        simp [maskAssign, maskSelect, ih ht hvt]

theorem maskAssign_getD_of_false {xs : List α} {m : List Bool} {vs : List α}
    {j : ℕ} (hj : j < xs.length) (hm : m.getD j false = false) (d : α) :
    (maskAssign xs m vs).getD j d = xs.getD j d := by
  induction xs generalizing m vs j with
  | nil => simp at hj
  | cons x xs ih =>
    cases m with
    | nil => simp [maskAssign]
    | cons b t =>
      cases j with
      | zero =>
        rw [getD_cons_zero] at hm
        subst hm
        cases vs <;> simp [maskAssign, getD_cons_zero]
      | succ n =>
        have hn : n < xs.length := by simpa using hj
        rw [getD_cons_succ] at hm
        cases b with
        | true =>
          cases vs with
          | nil =>
            show (x :: maskAssign xs t []).getD (n + 1) d = (x :: xs).getD (n + 1) d
            rw [getD_cons_succ, getD_cons_succ]
            exact ih hn hm
          | cons v vt =>
            show (v :: maskAssign xs t vt).getD (n + 1) d = (x :: xs).getD (n + 1) d
            rw [getD_cons_succ, getD_cons_succ]
            exact ih hn hm
        | false =>
          show (x :: maskAssign xs t vs).getD (n + 1) d = (x :: xs).getD (n + 1) d
          rw [getD_cons_succ, getD_cons_succ]
          exact ih hn hm

theorem cumsumFrom_getD {xs : List ℚ} {k : ℕ} (h : k < xs.length) (a : ℚ) :
    (cumsumFrom a xs).getD k 0 = a + (xs.take (k + 1)).sum := by
  induction xs generalizing a k with
  | nil => simp at h
  | cons x xs ih =>
    cases k with
    | zero => simp [cumsumFrom, getD_cons_zero]
    | succ n =>
      have hn : n < xs.length := by simpa using h
      rw [cumsumFrom, getD_cons_succ, ih hn]
      simp [List.take_succ_cons]
      ring

theorem cumsum_getD {xs : List ℚ} {k : ℕ} (h : k < xs.length) :
    (cumsum xs).getD k 0 = (xs.take (k + 1)).sum := by
  rw [cumsum, cumsumFrom_getD h, zero_add]

theorem cumsum_length (xs : List ℚ) : (cumsum xs).length = xs.length := by
  suffices h : ∀ a, (cumsumFrom a xs).length = xs.length from h 0
  induction xs with
  | nil => intro a; rfl
  | cons x t ih => intro a; simp [cumsumFrom, ih]

theorem zipWith_getD {f : α → β → γ} {as : List α} {bs : List β} {k : ℕ}
    (ha : k < as.length) (hb : k < bs.length) (da : α) (db : β) (d : γ) :
    (List.zipWith f as bs).getD k d = f (as.getD k da) (bs.getD k db) := by
  induction as generalizing bs k with
  | nil => simp at ha
  | cons a t ih =>
    cases bs with
    | nil => simp at hb
    | cons b u =>
      cases k with
      | zero => simp [getD_cons_zero]
      | succ n =>
        have hn : n < t.length := by simpa using ha
        have hn2 : n < u.length := by simpa using hb
        show (f a b :: List.zipWith f t u).getD (n + 1) d =
          f ((a :: t).getD (n + 1) da) ((b :: u).getD (n + 1) db)
        rw [getD_cons_succ, getD_cons_succ, getD_cons_succ]
        exact ih hn hn2

/-! ### `allB` / `findIdxQ` lemmas -/

theorem allB_eq_true_iff (p : α → Bool) (l : List α) :
    allB p l = true ↔ ∀ x ∈ l, p x = true := by
  induction l with
  | nil => simp [allB]
  | cons x t ih => simp [allB, ih]

theorem allB_eq_false_of_mem {p : α → Bool} {l : List α} {x : α}
    (hx : x ∈ l) (hp : p x = false) : allB p l = false := by
  cases h : allB p l with
  | false => rfl
  | true =>
    have := (allB_eq_true_iff p l).mp h x hx
    rw [hp] at this
    cases this

theorem findIdxQ_eq_some {p : α → Bool} {l : List α} {j : ℕ}
    (h : findIdxQ p l = some j) (d : α) :
    j < l.length ∧ p (l.getD j d) = true ∧ ∀ k < j, p (l.getD k d) = false := by
  induction l generalizing j with
  | nil => simp [findIdxQ] at h
  | cons x t ih =>
    rw [findIdxQ] at h
    by_cases hp : p x
    · rw [if_pos hp] at h
      simp only [Option.some.injEq] at h
      subst h
      exact ⟨by simp, by simpa [getD_cons_zero] using hp, by omega⟩
    · rw [if_neg hp] at h
      cases hrec : findIdxQ p t with
      | none => rw [hrec] at h; simp at h
      | some i =>
        rw [hrec] at h
        simp at h
        subst h
        obtain ⟨h1, h2, h3⟩ := ih hrec
        refine ⟨by simpa using h1, by simpa [getD_cons_succ] using h2, ?_⟩
        intro k hk
        cases k with
        | zero => simpa [getD_cons_zero] using hp
        | succ n => rw [getD_cons_succ]; exact h3 n (by omega)

theorem findIdxQ_eq_none {p : α → Bool} {l : List α}
    (h : findIdxQ p l = none) (d : α) :
    ∀ k < l.length, p (l.getD k d) = false := by
  induction l with
  | nil => simp
  | cons x t ih =>
    rw [findIdxQ] at h
    by_cases hp : p x
    · rw [if_pos hp] at h; simp at h
    · rw [if_neg hp] at h
      intro k hk
      cases k with
      | zero =>
        rw [getD_cons_zero]
        cases hpx : p x with
        | true => exact absurd hpx hp
        | false => rfl
      | succ n =>
        rw [getD_cons_succ]
        cases hrec : findIdxQ p t with
        | none => exact ih hrec n (by simpa using hk)
        | some i => rw [hrec] at h; simp at h

theorem findIdxQ_isSome_of_exists {p : α → Bool} {l : List α} {k : ℕ} {d : α}
    (hk : k < l.length) (hp : p (l.getD k d) = true) :
    ∃ j, findIdxQ p l = some j := by
  cases h : findIdxQ p l with
  | some j => exact ⟨j, rfl⟩
  | none =>
    have := findIdxQ_eq_none h d k hk
    rw [hp] at this
    cases this

/-! ### Adjacent-pairs (`zip vod vod.tail`) lemmas -/

theorem zip_tail_length (l : List α) :
    (List.zip l l.tail).length = l.length - 1 := by
  rw [List.length_zip]
  cases l <;> simp

theorem zip_tail_getD {l : List α} {j : ℕ} (h : j + 1 < l.length) (d : α) :
    (List.zip l l.tail).getD j (d, d) = (l.getD j d, l.getD (j + 1) d) := by
  induction l generalizing j with
  | nil => simp at h
  | cons x t ih =>
    cases t with
    | nil => simp at h
    | cons y u =>
      cases j with
      | zero => simp [getD_cons_zero, getD_cons_succ]
      | succ n =>
        have hn : n + 1 < (y :: u).length := by simpa using h
        simpa [getD_cons_succ] using ih hn

/-! ### `selectIndex` characterization -/

theorem selectIndex_above {vod : List ℚ} {c : ℚ} (h : ∀ x ∈ vod, c < x) :
    selectIndex vod c =
      if vod.getD (vod.length - 1) 0 < vod.getD (vod.length - 2) 0 then
        .idx (vod.length - 2)
      else .sentinel := by
  have hall : allB (fun x => decide (c < x)) vod = true :=
    (allB_eq_true_iff _ _).mpr fun x hx => decide_eq_true (h x hx)
  simp only [selectIndex, hall]
  simp

theorem selectIndex_below {vod : List ℚ} {c : ℚ} (hne : vod ≠ [])
    (h : ∀ x ∈ vod, x < c) :
    selectIndex vod c =
      if vod.getD 1 0 < vod.getD 0 0 then .idx 0 else .sentinel := by
  have hlen : 0 < vod.length := List.length_pos.mpr hne
  have hmem : vod.getD 0 0 ∈ vod := getD_mem hlen 0
  have hfalse : allB (fun x => decide (c < x)) vod = false :=
    allB_eq_false_of_mem hmem (decide_eq_false (not_lt.mpr (le_of_lt (h _ hmem))))
  have hall : allB (fun x => decide (x < c)) vod = true :=
    (allB_eq_true_iff _ _).mpr fun x hx => decide_eq_true (h x hx)
  simp only [selectIndex, hfalse, hall]
  simp

theorem selectIndex_cross {vod : List ℚ} {c : ℚ} {i : ℕ} (hc : Crossing vod c i) :
    ∃ j, selectIndex vod c = .idx j ∧ Crossing vod c j ∧
      ∀ k < j, ¬ Crossing vod c k := by
  obtain ⟨hlen, hge, hlt⟩ := hc
  have hmem1 : vod.getD (i + 1) 0 ∈ vod := getD_mem hlen 0
  have hmem0 : vod.getD i 0 ∈ vod := getD_mem (by omega) 0
  have hA : allB (fun x => decide (c < x)) vod = false :=
    allB_eq_false_of_mem hmem1 (decide_eq_false (not_lt.mpr (le_of_lt hlt)))
  have hB : allB (fun x => decide (x < c)) vod = false :=
    allB_eq_false_of_mem hmem0 (decide_eq_false (not_lt.mpr hge))
  have hplen : (List.zip vod vod.tail).length = vod.length - 1 := zip_tail_length vod
  have hpi : i < (List.zip vod vod.tail).length := by omega
  obtain ⟨j, hj⟩ := findIdxQ_isSome_of_exists
    (p := fun p : ℚ × ℚ => decide (c ≤ p.1) && decide (p.2 < c))
    (d := ((0 : ℚ), (0 : ℚ))) hpi (by
      rw [zip_tail_getD hlen]
      simp only [Bool.and_eq_true, decide_eq_true_eq]
      exact ⟨hge, hlt⟩)
  obtain ⟨hjlen, hjpred, hjmin⟩ := findIdxQ_eq_some hj ((0 : ℚ), (0 : ℚ))
  have hjlen2 : j + 1 < vod.length := by omega
  refine ⟨j, ?_, ?_, ?_⟩
  · simp only [selectIndex, hA, hB]
    simp only [Bool.false_eq_true, if_false]
    unfold findCrossing
    rw [hj]
  · rw [zip_tail_getD hjlen2] at hjpred
    simp only [Bool.and_eq_true, decide_eq_true_eq] at hjpred
    exact ⟨hjlen2, hjpred.1, hjpred.2⟩
  · intro k hk hck
    obtain ⟨hklen, hkge, hklt⟩ := hck
    have hfalse := hjmin k hk
    rw [zip_tail_getD hklen] at hfalse
    rw [decide_eq_true hkge, Bool.true_and] at hfalse
    exact absurd hklt (of_decide_eq_false hfalse)

theorem selectIndex_nocross {vod : List ℚ} {c : ℚ}
    (hge : ∃ x ∈ vod, c ≤ x) (hlt : ∃ x ∈ vod, x < c)
    (hnc : ∀ i, ¬ Crossing vod c i) :
    selectIndex vod c = .ierror := by
  obtain ⟨xg, hxg, hxg2⟩ := hge
  obtain ⟨xl, hxl, hxl2⟩ := hlt
  have hA : allB (fun x => decide (c < x)) vod = false :=
    allB_eq_false_of_mem hxl (decide_eq_false (not_lt.mpr (le_of_lt hxl2)))
  have hB : allB (fun x => decide (x < c)) vod = false :=
    allB_eq_false_of_mem hxg (decide_eq_false (not_lt.mpr hxg2))
  simp only [selectIndex, hA, hB]
  simp only [Bool.false_eq_true, if_false]
  cases hf : findCrossing vod c with
  | none => rfl
  | some j =>
    exfalso
    unfold findCrossing at hf
    obtain ⟨hjlen, hjpred, _⟩ := findIdxQ_eq_some hf ((0 : ℚ), (0 : ℚ))
    have hplen : (List.zip vod vod.tail).length = vod.length - 1 := zip_tail_length vod
    have hjlen2 : j + 1 < vod.length := by omega
    rw [zip_tail_getD hjlen2] at hjpred
    simp only [Bool.and_eq_true, decide_eq_true_eq] at hjpred
    exact hnc j ⟨hjlen2, hjpred.1, hjpred.2⟩

/-! ### `registerQuantities` lemmas -/

theorem mem_registerQuantities_of_mem {catQ : List (String × String)}
    {q : String × String} (hq : q ∈ catQ) (fields : List (FieldKey × String))
    (critical : ℤ) : q ∈ registerQuantities fields critical catQ := by
  induction fields generalizing catQ with
  | nil => exact hq
  | cons f fs ih =>
    have hstep : registerQuantities (f :: fs) critical catQ =
        registerQuantities fs critical
          (if (qname f.1 critical, "callback") ∈ catQ then catQ
           else catQ ++ [(qname f.1 critical, "callback")]) := rfl
    rw [hstep]
    by_cases hm : (qname f.1 critical, "callback") ∈ catQ
    · rw [if_pos hm]
      exact ih hq
    · rw [if_neg hm]
      exact ih (List.mem_append_left _ hq)

theorem self_mem_registerQuantities {fields : List (FieldKey × String)}
    {f : FieldKey × String} (hf : f ∈ fields) (critical : ℤ)
    (catQ : List (String × String)) :
    (qname f.1 critical, "callback") ∈ registerQuantities fields critical catQ := by
  induction fields generalizing catQ with
  | nil => simp at hf
  | cons g fs ih =>
    have hstep : registerQuantities (g :: fs) critical catQ =
        registerQuantities fs critical
          (if (qname g.1 critical, "callback") ∈ catQ then catQ
           else catQ ++ [(qname g.1 critical, "callback")]) := rfl
    rw [hstep]
    rcases List.mem_cons.mp hf with hf | hf
    · subst hf
      apply mem_registerQuantities_of_mem _ fs critical
      by_cases hm : (qname f.1 critical, "callback") ∈ catQ
      · rw [if_pos hm]; exact hm
      · rw [if_neg hm]; exact List.mem_append_right _ (by simp)
    · exact ih hf _

/-! ### `computeVQ` lemmas -/

theorem computeVQ_ok (env : VEnv) (critical : ℤ) (pd : ProfileData)
    (m : List Bool) (vod : List ℚ) (i : ℕ) :
    ∀ (fs : List (FieldKey × String)) (acc : List (String × ℚ)),
    (∀ f ∈ fs, (lookupA pd.fields f.1).isSome) →
    ∃ res, computeVQ env critical pd m vod i fs acc = .ok res := by
  intro fs
  induction fs with
  | nil => exact fun acc _ => ⟨acc, rfl⟩
  | cons f t ih =>
    intro acc hall
    have hf := hall f (by simp)
    cases hc : lookupA pd.fields f.1 with
    | none => rw [hc] at hf; simp at hf
    | some arr =>
      simp only [computeVQ, hc]
      exact ih _ fun g hg => hall g (List.mem_cons_of_mem _ hg)

theorem computeVQ_lookup_of_not_mem (env : VEnv) (critical : ℤ)
    (pd : ProfileData) (m : List Bool) (vod : List ℚ) (i : ℕ) :
    ∀ (fs : List (FieldKey × String)) (acc res : List (String × ℚ)) (k : String),
    computeVQ env critical pd m vod i fs acc = .ok res →
    k ∉ fs.map (fun f => qname f.1 critical) →
    lookupA res k = lookupA acc k := by
  intro fs
  induction fs with
  | nil =>
    intro acc res k h _
    simp only [computeVQ, Except.ok.injEq] at h
    rw [h]
  | cons f t ih =>
    intro acc res k h hk
    simp only [List.map_cons, List.mem_cons, not_or] at hk
    cases hc : lookupA pd.fields f.1 with
    | none =>
      simp only [computeVQ, hc] at h
      exact Except.noConfusion h
    | some arr =>
      simp only [computeVQ, hc] at h
      rw [ih _ _ _ h hk.2, lookupA_setA]
      rw [if_neg fun hh => hk.1 hh.symm]

theorem computeVQ_lookup_self (env : VEnv) (critical : ℤ) (pd : ProfileData)
    (m : List Bool) (vod : List ℚ) (i : ℕ) :
    ∀ (fs : List (FieldKey × String)) (acc res : List (String × ℚ)),
    computeVQ env critical pd m vod i fs acc = .ok res →
    (fs.map (fun f => qname f.1 critical)).Nodup →
    ∀ f ∈ fs, ∀ arr, lookupA pd.fields f.1 = some arr →
    lookupA res (qname f.1 critical) =
      some (env.convert arr.units f.2
        (interpValue env critical vod i (maskSelect arr.values m))) := by
  intro fs
  induction fs with
  | nil => intro acc res _ _ f hf; simp at hf
  | cons g t ih =>
    intro acc res h hnd f hf arr harr
    simp only [List.map_cons, List.nodup_cons] at hnd
    rcases List.mem_cons.mp hf with hfg | hft
    · subst hfg
      simp only [computeVQ, harr] at h
      rw [computeVQ_lookup_of_not_mem env critical pd m vod i t _ _ _ h hnd.1,
        lookupA_setA, if_pos rfl]
    · cases hc : lookupA pd.fields g.1 with
      | none =>
        simp only [computeVQ, hc] at h
        exact Except.noConfusion h
      | some arr2 =>
        simp only [computeVQ, hc] at h
        exact ih _ _ h hnd.2 f hft arr harr

theorem lookupA_updateA_nil [DecidableEq α] {l : List (α × β)}
    (h : NodupKeys l) (k : α) : lookupA (updateA [] l) k = lookupA l k := by
  rw [lookupA_updateA, lastLookup_eq_lookupA h]
  cases lookupA l k <;> simp [lookupA]

theorem computeVQ_nodupKeys (env : VEnv) (critical : ℤ) (pd : ProfileData)
    (m : List Bool) (vod : List ℚ) (i : ℕ) :
    ∀ (fs : List (FieldKey × String)) (acc res : List (String × ℚ)),
    computeVQ env critical pd m vod i fs acc = .ok res →
    NodupKeys acc → NodupKeys res := by
  intro fs
  induction fs with
  | nil =>
    intro acc res h hnd
    simp only [computeVQ, Except.ok.injEq] at h
    rwa [← h]
  | cons f t ih =>
    intro acc res h hnd
    cases hc : lookupA pd.fields f.1 with
    | none =>
      simp only [computeVQ, hc] at h
      exact Except.noConfusion h
    | some arr =>
      simp only [computeVQ, hc] at h
      exact ih _ _ h (nodupKeys_setA hnd _ _)

theorem nodupKeys_vq0 {fields : List (FieldKey × String)} {critical : ℤ}
    (h : (fields.map fun f => qname f.1 critical).Nodup) :
    NodupKeys (fields.map fun f => (qname f.1 critical, (0 : ℚ))) := by
  unfold NodupKeys
  rw [List.map_map]
  simpa [Function.comp] using h

/-! ### Claim theorems -/

/-- C6: when the profile storage slot has no `("gas", "overdensity")`
profile, `virial_quantities` raises the fatal `RuntimeError` and the halo's
quantities mapping is left unchanged. -/
theorem virial_quantities_missing_overdensity (env : VEnv)
    (fields : List (FieldKey × String)) (critical : ℤ) (pd : ProfileData)
    (catQ : List (String × String)) (haloQ : List (String × ℚ))
    (h : lookupA pd.fields ("gas", "overdensity") = none) :
    (virial_quantities env fields critical (some pd) catQ haloQ).haloq = haloQ ∧
    (virial_quantities env fields critical (some pd) catQ haloQ).err =
      some "RuntimeError: virial_quantities callback requires profile of (gas, overdensity)." := by
  simp [virial_quantities, h]

theorem virial_quantities_missing_overdensity_witness :
    lookupA (ProfileData.mk [true, true] []).fields ("gas", "overdensity") = none ∧
    ((virial_quantities envW [((("gas", "cell_mass") : FieldKey), "g")] 200
        (some (ProfileData.mk [true, true] [])) [] [("old", 7)]).haloq = [("old", 7)] ∧
      (virial_quantities envW [((("gas", "cell_mass") : FieldKey), "g")] 200
        (some (ProfileData.mk [true, true] [])) [] [("old", 7)]).err =
        some "RuntimeError: virial_quantities callback requires profile of (gas, overdensity).") :=
  ⟨rfl, virial_quantities_missing_overdensity envW _ 200 _ [] [("old", 7)] rfl⟩

/-- C9: the derived-quantity name tuples are appended to the catalog's
quantities list before the overdensity-profile precondition is checked, so
an invocation that aborts with the missing-profile `RuntimeError` still
leaves the catalog's list extended with those names. -/
theorem virial_quantities_registers_before_check (env : VEnv)
    (fields : List (FieldKey × String)) (critical : ℤ) (pd : ProfileData)
    (catQ : List (String × String)) (haloQ : List (String × ℚ))
    (h : lookupA pd.fields ("gas", "overdensity") = none) :
    (∀ f ∈ fields, (qname f.1 critical, "callback") ∈
      (virial_quantities env fields critical (some pd) catQ haloQ).catalog) ∧
    (virial_quantities env fields critical (some pd) catQ haloQ).err =
      some "RuntimeError: virial_quantities callback requires profile of (gas, overdensity)." := by
  have hcat : (virial_quantities env fields critical (some pd) catQ haloQ).catalog =
      registerQuantities fields critical catQ := by
    simp only [virial_quantities, h]
  constructor
  · intro f hf
    rw [hcat]
    exact self_mem_registerQuantities hf critical catQ
  · simp only [virial_quantities, h]

theorem virial_quantities_registers_before_check_witness :
    lookupA (ProfileData.mk [true] []).fields ("gas", "overdensity") = none ∧
    ((∀ f ∈ [((("gas", "cell_mass") : FieldKey), "g")], (qname f.1 200, "callback") ∈
        (virial_quantities envW [((("gas", "cell_mass") : FieldKey), "g")] 200
          (some (ProfileData.mk [true] [])) [] []).catalog) ∧
      (virial_quantities envW [((("gas", "cell_mass") : FieldKey), "g")] 200
        (some (ProfileData.mk [true] [])) [] []).err =
        some "RuntimeError: virial_quantities callback requires profile of (gas, overdensity).") :=
  ⟨rfl, virial_quantities_registers_before_check envW _ 200 _ [] [] rfl⟩

/-- C7: with all three position quantities and the named radius quantity
present, `halo_sphere` attaches a sphere centred on the position divided by
the dataset length unit, with radius `factor` times the radius quantity
divided by the length unit, overwriting any previously attached region
(the produced region does not depend on the prior `data_object`). -/
theorem halo_sphere_spec (length_unit : ℚ) (halo : SHalo) (radius_field : String)
    (factor px py pz r : ℚ)
    (hx : lookupA halo.quantities "particle_position_x" = some px)
    (hy : lookupA halo.quantities "particle_position_y" = some py)
    (hz : lookupA halo.quantities "particle_position_z" = some pz)
    (hr : lookupA halo.quantities radius_field = some r) :
    halo_sphere length_unit halo radius_field factor =
      ({ halo with
          data_object :=
            some (Region.mk (px / length_unit, py / length_unit, pz / length_unit)
              (factor * r / length_unit, "code_length")) },
        none) ∧
    (halo_sphere length_unit
        (halo_sphere length_unit halo radius_field factor).1 radius_field factor).1.data_object =
      some (Region.mk (px / length_unit, py / length_unit, pz / length_unit)
        (factor * r / length_unit, "code_length")) := by
  have h1 : halo_sphere length_unit halo radius_field factor =
      ({ halo with
          data_object :=
            some (Region.mk (px / length_unit, py / length_unit, pz / length_unit)
              (factor * r / length_unit, "code_length")) },
        none) := by
    simp only [halo_sphere, hx, hy, hz, hr]
  refine ⟨h1, ?_⟩
  rw [h1]
  simp only [halo_sphere, hx, hy, hz, hr]

theorem halo_sphere_spec_witness :
    lookupA [("particle_position_x", (6 : ℚ)), ("particle_position_y", 8),
        ("particle_position_z", 10), ("virial_radius", 4)] "particle_position_x" = some 6 ∧
    lookupA [("particle_position_x", (6 : ℚ)), ("particle_position_y", 8),
        ("particle_position_z", 10), ("virial_radius", 4)] "particle_position_y" = some 8 ∧
    lookupA [("particle_position_x", (6 : ℚ)), ("particle_position_y", 8),
        ("particle_position_z", 10), ("virial_radius", 4)] "particle_position_z" = some 10 ∧
    lookupA [("particle_position_x", (6 : ℚ)), ("particle_position_y", 8),
        ("particle_position_z", 10), ("virial_radius", 4)] "virial_radius" = some 4 ∧
    (halo_sphere 2 (SHalo.mk [("particle_position_x", 6), ("particle_position_y", 8),
        ("particle_position_z", 10), ("virial_radius", 4)] none) "virial_radius" 3 =
      (SHalo.mk [("particle_position_x", 6), ("particle_position_y", 8),
          ("particle_position_z", 10), ("virial_radius", 4)]
        (some ⟨(3, 4, 5), (6, "code_length")⟩), none) ∧
      (halo_sphere 2 (halo_sphere 2 (SHalo.mk [("particle_position_x", 6),
          ("particle_position_y", 8), ("particle_position_z", 10), ("virial_radius", 4)] none)
          "virial_radius" 3).1 "virial_radius" 3).1.data_object =
        some ⟨(3, 4, 5), (6, "code_length")⟩) := by
  refine ⟨by decide, by decide, by decide, by decide, ?_⟩
  have h := halo_sphere_spec 2 (SHalo.mk [("particle_position_x", 6), ("particle_position_y", 8),
      ("particle_position_z", 10), ("virial_radius", 4)] none) "virial_radius" 3 6 8 10 4
    (by decide) (by decide) (by decide) (by decide)
  refine ⟨?_, ?_⟩
  · rw [h.1]
    norm_num
  · rw [h.2]
    norm_num

/-- C8: when any of the three position quantities or the named radius
quantity is missing, `halo_sphere` reports a `KeyError` and leaves the halo
(and in particular its `data_object`) unchanged. -/
theorem halo_sphere_missing_key (length_unit : ℚ) (halo : SHalo)
    (radius_field : String) (factor : ℚ)
    (h : lookupA halo.quantities "particle_position_x" = none ∨
         lookupA halo.quantities "particle_position_y" = none ∨
         lookupA halo.quantities "particle_position_z" = none ∨
         lookupA halo.quantities radius_field = none) :
    (halo_sphere length_unit halo radius_field factor).2.isSome = true ∧
    (halo_sphere length_unit halo radius_field factor).1 = halo := by
  rcases h with h | h | h | h
  · simp [halo_sphere, h]
  · cases hx : lookupA halo.quantities "particle_position_x" <;>
      simp [halo_sphere, hx, h]
  · cases hx : lookupA halo.quantities "particle_position_x" <;>
      cases hy : lookupA halo.quantities "particle_position_y" <;>
        simp [halo_sphere, hx, hy, h]
  · cases hx : lookupA halo.quantities "particle_position_x" <;>
      cases hy : lookupA halo.quantities "particle_position_y" <;>
        cases hz : lookupA halo.quantities "particle_position_z" <;>
          simp [halo_sphere, hx, hy, hz, h]

theorem halo_sphere_missing_key_witness :
    (lookupA [("particle_position_x", (6 : ℚ)), ("particle_position_y", 8),
        ("particle_position_z", 10)] "particle_position_x" = none ∨
      lookupA [("particle_position_x", (6 : ℚ)), ("particle_position_y", 8),
        ("particle_position_z", 10)] "particle_position_y" = none ∨
      lookupA [("particle_position_x", (6 : ℚ)), ("particle_position_y", 8),
        ("particle_position_z", 10)] "particle_position_z" = none ∨
      lookupA [("particle_position_x", (6 : ℚ)), ("particle_position_y", 8),
        ("particle_position_z", 10)] "virial_radius" = none) ∧
    ((halo_sphere 2 (SHalo.mk [("particle_position_x", (6 : ℚ)), ("particle_position_y", 8),
        ("particle_position_z", 10)] none) "virial_radius" 3).2.isSome = true ∧
      (halo_sphere 2 (SHalo.mk [("particle_position_x", (6 : ℚ)), ("particle_position_y", 8),
        ("particle_position_z", 10)] none) "virial_radius" 3).1 =
        SHalo.mk [("particle_position_x", (6 : ℚ)), ("particle_position_y", 8),
          ("particle_position_z", 10)] none) :=
  ⟨Or.inr (Or.inr (Or.inr (by decide))),
    halo_sphere_missing_key 2 _ "virial_radius" 3
      (Or.inr (Or.inr (Or.inr (by decide))))⟩

/-- C10: with `x_range` omitted, `profile` raises the temporary-check
`RuntimeError` exactly when the extrema's unit is convertible to
centimeters; otherwise the call proceeds as if the caller had passed the
extrema values reinterpreted in the unit `"cm"`. -/
theorem profile_x_range_unit_check (env : PEnv) (engine : EngineArgs → EngineOut)
    (extrema : (ℚ × ℚ) × String) (x_field : FieldKey) (y_fields : List FieldKey)
    (x_bins : ℕ) (x_log : Bool) (weight_field : Option String)
    (accumulation : Bool) (slot : Option ProfileData) :
    profile env engine extrema x_field y_fields x_bins none x_log
        weight_field accumulation slot =
      (if env.cmConvertible extrema.2 then
        Except.error
          "RuntimeError: Looks like derived quantities have been fixed.  Fix this code!"
      else
        profile env engine extrema x_field y_fields x_bins (some (extrema.1, "cm")) x_log
          weight_field accumulation slot) ∧
    isOkE (profile env engine extrema x_field y_fields x_bins none x_log
        weight_field accumulation slot) = !env.cmConvertible extrema.2 := by
  cases h : env.cmConvertible extrema.2 <;>
    simp [profile, h, isOkE]

/-- C4: profiling into an already-existing storage slot yields the AND of
the old and new `"used"` masks and the union of the field arrays with the
new call's arrays overwriting same-named ones; profiling into a missing
slot creates it fresh with the new profile's mask and arrays. -/
theorem profile_merge_spec (env : PEnv) (engine : EngineArgs → EngineOut)
    (extrema : (ℚ × ℚ) × String) (x_field : FieldKey) (y_fields : List FieldKey)
    (x_bins : ℕ) (r : (ℚ × ℚ) × String) (x_log : Bool) (weight_field : Option String)
    (accumulation : Bool) (s : ProfileData) :
    ∃ fresh merged : ProfileData,
      profile env engine extrema x_field y_fields x_bins (some r) x_log
        weight_field accumulation none = .ok fresh ∧
      profile env engine extrema x_field y_fields x_bins (some r) x_log
        weight_field accumulation (some s) = .ok merged ∧
      fresh.used =
        (engine ⟨x_field, x_bins, r.1.1, r.1.2, r.2, x_log, weight_field, y_fields⟩).used ∧
      merged.used = List.zipWith (· && ·) s.used fresh.used ∧
      ∀ k, lookupA merged.fields k =
        if (lookupA fresh.fields k).isSome then lookupA fresh.fields k
        else lookupA s.fields k := by
  refine ⟨_, _, rfl, rfl, rfl, rfl, ?_⟩
  intro k
  simp only [storeProfile]
  rw [lookupA_updateA, lookupA_updateA]
  cases lastLookup (profStoreOf env
      (engine ⟨x_field, x_bins, r.1.1, r.1.2, r.2, x_log, weight_field, y_fields⟩)
      x_field weight_field accumulation) k <;>
    simp [lookupA]

/-- C1 as stated is false: with the two valid bins `[100, 300]` straddling
the threshold 200 from below (no downward crossing anywhere),
`virial_quantities` raises `IndexError` (from `np.where(...)[0][0]` on an
empty index array) instead of writing the zero sentinels, even though all
requested fields are present in the profile. -/
theorem virial_quantities_no_crossing_raises_cex :
    countTrue (dfilterOf [(100 : ℚ), 300] [true, true]) = 2 ∧
    findCrossing [(100 : ℚ), 300] 200 = none ∧
    (virial_quantities envW [((("gas", "cell_mass") : FieldKey), "g")] 200
        (some (ProfileData.mk [true, true]
          [((("gas", "overdensity") : FieldKey), ProfArr.mk [100, 300] "dimensionless"),
           ((("gas", "cell_mass") : FieldKey), ProfArr.mk [1, 2] "g")]))
        [] []).err = some "IndexError" ∧
    (virial_quantities envW [((("gas", "cell_mass") : FieldKey), "g")] 200
        (some (ProfileData.mk [true, true]
          [((("gas", "overdensity") : FieldKey), ProfArr.mk [100, 300] "dimensionless"),
           ((("gas", "cell_mass") : FieldKey), ProfArr.mk [1, 2] "g")]))
        [] []).haloq = [] := by
  refine ⟨by decide, by decide, ?_, ?_⟩ <;> rfl

/-- C1 (amended): when fewer than 2 bins pass the validity filter, or all
filtered overdensities are strictly above the threshold without the last
two decreasing, or all are strictly below without the first two decreasing,
`virial_quantities` does not raise and writes exactly zero for every
requested derived quantity name.  (In the remaining no-crossing case, with
filtered values on both sides of the threshold but no adjacent downward
crossing, an `IndexError` is raised instead.) -/
theorem virial_quantities_sentinel_zeros (env : VEnv)
    (fields : List (FieldKey × String)) (critical : ℤ) (pd : ProfileData)
    (catQ : List (String × String)) (haloQ : List (String × ℚ)) (od : ProfArr)
    (m : List Bool) (vod : List ℚ)
    (hod : lookupA pd.fields ("gas", "overdensity") = some od)
    (hm : dfilterOf od.values pd.used = m)
    (hvod : maskSelect od.values m = vod)
    (hsent :
      countTrue m < 2 ∨
      (2 ≤ countTrue m ∧ (∀ x ∈ vod, (critical : ℚ) < x) ∧
        ¬ vod.getD (vod.length - 1) 0 < vod.getD (vod.length - 2) 0) ∨
      (2 ≤ countTrue m ∧ (∀ x ∈ vod, x < (critical : ℚ)) ∧
        ¬ vod.getD 1 0 < vod.getD 0 0)) :
    (virial_quantities env fields critical (some pd) catQ haloQ).err = none ∧
    ∀ f ∈ fields,
      lookupA (virial_quantities env fields critical (some pd) catQ haloQ).haloq
        (qname f.1 critical) = some 0 := by
  subst hm
  subst hvod
  have key : virial_quantities env fields critical (some pd) catQ haloQ =
      ⟨registerQuantities fields critical catQ,
        updateA haloQ (fields.map fun f => (qname f.1 critical, 0)), none⟩ := by
    rcases hsent with hcnt | ⟨hcnt, hall, hnot⟩ | ⟨hcnt, hall, hnot⟩
    · simp only [virial_quantities, hod]
      rw [if_pos hcnt]
    · have hsel := selectIndex_above (c := (critical : ℚ)) hall
      rw [if_neg hnot] at hsel
      simp only [virial_quantities, hod]
      rw [if_neg (by omega), hsel]
    · have hne : maskSelect od.values (dfilterOf od.values pd.used) ≠ [] := by
        have hlen : (maskSelect od.values (dfilterOf od.values pd.used)).length =
            countTrue (dfilterOf od.values pd.used) :=
          maskSelect_length (dfilterOf_length_le _ _)
        intro hnil
        rw [hnil] at hlen
        simp only [List.length_nil] at hlen
        omega
      have hsel := selectIndex_below (c := (critical : ℚ)) hne hall
      rw [if_neg hnot] at hsel
      simp only [virial_quantities, hod]
      rw [if_neg (by omega), hsel]
  rw [key]
  refine ⟨rfl, ?_⟩
  intro f hf
  apply lookupA_eq_some_of_allconst
  · intro p hp
    obtain ⟨g, _, rfl⟩ := List.mem_map.mp hp
    rfl
  · exact List.mem_map.mpr ⟨(qname f.1 critical, 0), List.mem_map.mpr ⟨f, hf, rfl⟩, rfl⟩

theorem virial_quantities_sentinel_zeros_witness :
    lookupA [((("gas", "overdensity") : FieldKey), ProfArr.mk [50] "dimensionless")]
      ("gas", "overdensity") = some (ProfArr.mk [50] "dimensionless") ∧
    dfilterOf [(50 : ℚ)] [true] = [true] ∧
    maskSelect [(50 : ℚ)] [true] = [50] ∧
    countTrue [true] < 2 ∧
    ((virial_quantities envW [((("gas", "cell_mass") : FieldKey), "g")] 200
        (some (ProfileData.mk [true]
          [((("gas", "overdensity") : FieldKey), ProfArr.mk [50] "dimensionless")]))
        [] []).err = none ∧
      ∀ f ∈ [((("gas", "cell_mass") : FieldKey), "g")],
        lookupA (virial_quantities envW [((("gas", "cell_mass") : FieldKey), "g")] 200
            (some (ProfileData.mk [true]
              [((("gas", "overdensity") : FieldKey), ProfArr.mk [50] "dimensionless")]))
            [] []).haloq (qname f.1 200) = some 0) :=
  ⟨rfl, by decide, by decide, by decide,
    virial_quantities_sentinel_zeros envW [((("gas", "cell_mass") : FieldKey), "g")] 200
      (ProfileData.mk [true]
        [((("gas", "overdensity") : FieldKey), ProfArr.mk [50] "dimensionless")])
      [] [] (ProfArr.mk [50] "dimensionless") [true] [50] rfl (by decide) (by decide)
      (Or.inl (by decide))⟩

/-- C2 as stated is false for its mixed case: in `[100, 300]` with
threshold 200 some entry is `≥ 200` and some is `< 200`, but there is no
index `i` with value `≥ 200` at `i` and `< 200` at `i+1` (the single
adjacent pair fails the test), and the selection raises `IndexError`
rather than producing any interpolation index. -/
theorem selectIndex_mixed_no_crossing_cex :
    (∃ x ∈ [(100 : ℚ), 300], 200 ≤ x) ∧
    (∃ x ∈ [(100 : ℚ), 300], x < 200) ∧
    (∀ i, ¬ Crossing [(100 : ℚ), 300] 200 i) ∧
    selectIndex [(100 : ℚ), 300] 200 = .ierror ∧
    ∀ i, selectIndex [(100 : ℚ), 300] 200 ≠ .idx i := by
  refine ⟨⟨300, by decide, by decide⟩, ⟨100, by decide, by decide⟩, ?_, by decide, ?_⟩
  · intro i hc
    obtain ⟨hl, hge, _⟩ := hc
    have hi : i = 0 := by
      simp only [List.length_cons, List.length_nil] at hl
      omega
    subst hi
    exact absurd hge (by decide)
  · intro i h
    rw [show selectIndex [(100 : ℚ), 300] 200 = .ierror from by decide] at h
    exact VIndex.noConfusion h

/-- C2 (amended): on the filtered overdensity sequence, the index selection
of `virial_quantities` behaves as follows.  If a downward crossing of the
threshold exists between some adjacent pair, the first such index is
selected.  If all entries are strictly above the threshold, the
second-to-last index is selected when the last entry is strictly below the
second-to-last, and the zero-sentinel path is taken otherwise.  If all
entries are strictly below, the first index is selected when the first
entry is strictly above the second, and the sentinel path is taken
otherwise.  If entries lie on both sides of the threshold but no adjacent
downward crossing exists, an `IndexError` is raised (this case is absent
from the claim as stated). -/
theorem selectIndex_spec (vod : List ℚ) (c : ℚ) (h2 : 2 ≤ vod.length) :
    ((∃ i, Crossing vod c i) →
      ∃ i, selectIndex vod c = .idx i ∧ Crossing vod c i ∧
        ∀ j < i, ¬ Crossing vod c j) ∧
    ((∀ x ∈ vod, c < x) →
      (vod.getD (vod.length - 1) 0 < vod.getD (vod.length - 2) 0 →
        selectIndex vod c = .idx (vod.length - 2)) ∧
      (¬ vod.getD (vod.length - 1) 0 < vod.getD (vod.length - 2) 0 →
        selectIndex vod c = .sentinel)) ∧
    ((∀ x ∈ vod, x < c) →
      (vod.getD 1 0 < vod.getD 0 0 → selectIndex vod c = .idx 0) ∧
      (¬ vod.getD 1 0 < vod.getD 0 0 → selectIndex vod c = .sentinel)) ∧
    ((∃ x ∈ vod, c ≤ x) → (∃ x ∈ vod, x < c) → (∀ i, ¬ Crossing vod c i) →
      selectIndex vod c = .ierror) := by
  refine ⟨?_, ?_, ?_, ?_⟩
  · rintro ⟨i, hi⟩
    exact selectIndex_cross hi
  · intro hall
    constructor <;> intro hcmp <;> rw [selectIndex_above hall]
    · rw [if_pos hcmp]
    · rw [if_neg hcmp]
  · intro hall
    have hne : vod ≠ [] := by
      intro hnil
      rw [hnil] at h2
      simp at h2
    constructor <;> intro hcmp <;> rw [selectIndex_below hne hall]
    · rw [if_pos hcmp]
    · rw [if_neg hcmp]
  · exact selectIndex_nocross

theorem selectIndex_spec_witness :
    2 ≤ ([(300 : ℚ), 100]).length ∧
    (∃ i, selectIndex [(300 : ℚ), 100] 200 = .idx i ∧ Crossing [(300 : ℚ), 100] 200 i ∧
      ∀ j < i, ¬ Crossing [(300 : ℚ), 100] 200 j) :=
  ⟨by decide, (selectIndex_spec [(300 : ℚ), 100] 200 (by decide)).1 ⟨0, by decide⟩⟩

/-- C3: once an interpolation index `i` is chosen, each requested field's
virial value is the exact two-point log-log interpolation
`exp(slope * ln(threshold / d0)) * f0` with `slope = ln(f1/f0) / ln(d1/d0)`,
where `d0, d1` and `f0, f1` are the filtered overdensity and field samples
at `i` and `i+1`, converted to the requested target unit and written into
the halo's quantities under the derived name. -/
theorem virial_quantities_loglog_interpolation (env : VEnv)
    (fields : List (FieldKey × String)) (critical : ℤ) (pd : ProfileData)
    (catQ : List (String × String)) (haloQ : List (String × ℚ)) (od : ProfArr)
    (m : List Bool) (i : ℕ)
    (hod : lookupA pd.fields ("gas", "overdensity") = some od)
    (hm : dfilterOf od.values pd.used = m)
    (hcnt : ¬ countTrue m < 2)
    (hsel : selectIndex (maskSelect od.values m) (critical : ℚ) = .idx i)
    (hpres : ∀ f ∈ fields, (lookupA pd.fields f.1).isSome)
    (hnames : (fields.map fun f => qname f.1 critical).Nodup) :
    (virial_quantities env fields critical (some pd) catQ haloQ).err = none ∧
    ∀ f ∈ fields, ∀ arr, lookupA pd.fields f.1 = some arr →
      lookupA (virial_quantities env fields critical (some pd) catQ haloQ).haloq
          (qname f.1 critical) =
        some (env.convert arr.units f.2
          (env.rexp
            ((env.rlog ((maskSelect arr.values m).getD (i + 1) 0 /
                (maskSelect arr.values m).getD i 0) /
              env.rlog ((maskSelect od.values m).getD (i + 1) 0 /
                (maskSelect od.values m).getD i 0)) *
              env.rlog ((critical : ℚ) / (maskSelect od.values m).getD i 0)) *
            (maskSelect arr.values m).getD i 0)) := by
  subst hm
  obtain ⟨res, hres⟩ := computeVQ_ok env critical pd (dfilterOf od.values pd.used)
    (maskSelect od.values (dfilterOf od.values pd.used)) i fields
    (fields.map fun f => (qname f.1 critical, 0)) hpres
  have key : virial_quantities env fields critical (some pd) catQ haloQ =
      ⟨registerQuantities fields critical catQ, updateA haloQ res, none⟩ := by
    simp only [virial_quantities, hod]
    simp only [if_neg hcnt, hsel, hres]
  rw [key]
  refine ⟨rfl, ?_⟩
  intro f hf arr harr
  have hndres : NodupKeys res :=
    computeVQ_nodupKeys env critical pd _ _ i fields _ res hres (nodupKeys_vq0 hnames)
  have hlook := computeVQ_lookup_self env critical pd (dfilterOf od.values pd.used)
    (maskSelect od.values (dfilterOf od.values pd.used)) i fields
    (fields.map fun f => (qname f.1 critical, 0)) res hres hnames f hf arr harr
  show lookupA (updateA haloQ res) (qname f.1 critical) = _
  rw [lookupA_updateA, lastLookup_eq_lookupA hndres, hlook]
  rfl

theorem virial_quantities_loglog_interpolation_witness :
    lookupA [((("gas", "overdensity") : FieldKey), ProfArr.mk [300, 100] "dimensionless"),
        ((("gas", "radius") : FieldKey), ProfArr.mk [10, 5] "cm")]
      ("gas", "overdensity") = some (ProfArr.mk [300, 100] "dimensionless") ∧
    dfilterOf [(300 : ℚ), 100] [true, true] = [true, true] ∧
    ¬ countTrue [true, true] < 2 ∧
    selectIndex (maskSelect [(300 : ℚ), 100] [true, true]) ((200 : ℤ) : ℚ) = .idx 0 ∧
    (∀ f ∈ [((("gas", "radius") : FieldKey), "km")],
      (lookupA [((("gas", "overdensity") : FieldKey), ProfArr.mk [300, 100] "dimensionless"),
          ((("gas", "radius") : FieldKey), ProfArr.mk [10, 5] "cm")] f.1).isSome) ∧
    (([((("gas", "radius") : FieldKey), "km")].map fun f => qname f.1 200)).Nodup ∧
    ((virial_quantities envW [((("gas", "radius") : FieldKey), "km")] 200
        (some (ProfileData.mk [true, true]
          [((("gas", "overdensity") : FieldKey), ProfArr.mk [300, 100] "dimensionless"),
           ((("gas", "radius") : FieldKey), ProfArr.mk [10, 5] "cm")]))
        [] []).err = none ∧
      ∀ f ∈ [((("gas", "radius") : FieldKey), "km")], ∀ arr,
        lookupA [((("gas", "overdensity") : FieldKey), ProfArr.mk [300, 100] "dimensionless"),
            ((("gas", "radius") : FieldKey), ProfArr.mk [10, 5] "cm")] f.1 = some arr →
        lookupA (virial_quantities envW [((("gas", "radius") : FieldKey), "km")] 200
            (some (ProfileData.mk [true, true]
              [((("gas", "overdensity") : FieldKey), ProfArr.mk [300, 100] "dimensionless"),
               ((("gas", "radius") : FieldKey), ProfArr.mk [10, 5] "cm")]))
            [] []).haloq (qname f.1 200) =
          some (envW.convert arr.units f.2
            (envW.rexp
              ((envW.rlog ((maskSelect arr.values [true, true]).getD (0 + 1) 0 /
                  (maskSelect arr.values [true, true]).getD 0 0) /
                envW.rlog ((maskSelect [(300 : ℚ), 100] [true, true]).getD (0 + 1) 0 /
                  (maskSelect [(300 : ℚ), 100] [true, true]).getD 0 0)) *
                envW.rlog (((200 : ℤ) : ℚ) /
                  (maskSelect [(300 : ℚ), 100] [true, true]).getD 0 0)) *
              (maskSelect arr.values [true, true]).getD 0 0))) :=
  ⟨rfl, by decide, by decide, by decide, by decide, by decide,
    virial_quantities_loglog_interpolation envW [((("gas", "radius") : FieldKey), "km")] 200
      (ProfileData.mk [true, true]
        [((("gas", "overdensity") : FieldKey), ProfArr.mk [300, 100] "dimensionless"),
         ((("gas", "radius") : FieldKey), ProfArr.mk [10, 5] "cm")])
      [] [] (ProfArr.mk [300, 100] "dimensionless") [true, true] 0
      rfl (by decide) (by decide) (by decide) (by decide) (by decide)⟩

theorem lookupA_withUnits (env : PEnv) (fd : List (FieldKey × List ℚ)) (k : FieldKey) :
    lookupA (fd.map fun p => (p.1, (⟨p.2, env.field_units p.1⟩ : ProfArr))) k =
      (lookupA fd k).map fun b => ProfArr.mk b (env.field_units k) :=
  lookupA_mapVal (fun a b => ProfArr.mk b (env.field_units a)) fd k

theorem lookupA_accMap (wf : Option String) (used : List Bool) (myW : List ℚ)
    (l : List (FieldKey × ProfArr)) (k : FieldKey) :
    lookupA (l.map fun p =>
        (p.1, ProfArr.mk (accumulateArr wf used myW p.2.values) p.2.units)) k =
      (lookupA l k).map fun b => ProfArr.mk (accumulateArr wf used myW b.values) b.units :=
  lookupA_mapVal (fun _ b => ProfArr.mk (accumulateArr wf used myW b.values) b.units) l k

theorem keys_withUnits (env : PEnv) (fd : List (FieldKey × List ℚ)) :
    ((fd.map fun p => (p.1, (⟨p.2, env.field_units p.1⟩ : ProfArr))).map Prod.fst) =
      fd.map Prod.fst :=
  keys_mapVal (fun a b => ProfArr.mk b (env.field_units a)) fd

theorem keys_accMap (wf : Option String) (used : List Bool) (myW : List ℚ)
    (l : List (FieldKey × ProfArr)) :
    ((l.map fun p =>
        (p.1, ProfArr.mk (accumulateArr wf used myW p.2.values) p.2.units)).map Prod.fst) =
      l.map Prod.fst :=
  keys_mapVal (fun _ b => ProfArr.mk (accumulateArr wf used myW b.values) b.units) l

theorem nodupKeys_profStoreOf (env : PEnv) (prof : EngineOut) (x_field : FieldKey)
    (wf : Option String) (acc : Bool) (hnd : NodupKeys prof.field_data) :
    NodupKeys (profStoreOf env prof x_field wf acc) := by
  simp only [profStoreOf]
  apply nodupKeys_setA
  unfold NodupKeys
  cases acc with
  | true =>
    rw [if_pos rfl]
    rw [keys_accMap, keys_withUnits]
    exact hnd
  | false =>
    rw [if_neg Bool.false_ne_true]
    rw [keys_withUnits]
    exact hnd

theorem lookupA_profStoreOf (env : PEnv) (prof : EngineOut) (x_field kf : FieldKey)
    (wf : Option String) (acc : Bool) (vals : List ℚ)
    (hxf : kf ≠ x_field) (hkf : lookupA prof.field_data kf = some vals) :
    lookupA (profStoreOf env prof x_field wf acc) kf =
      some (ProfArr.mk
        (cond acc (accumulateArr wf prof.used (prof.weight.map fun row => row.getD 0 0) vals)
          vals)
        (env.field_units kf)) := by
  cases acc with
  | true =>
    simp only [profStoreOf]
    rw [if_pos trivial, lookupA_setA, if_neg fun h => hxf h.symm, lookupA_accMap,
      lookupA_withUnits, hkf]
    rfl
  | false =>
    simp only [profStoreOf]
    rw [if_neg Bool.false_ne_true, lookupA_setA, if_neg fun h => hxf h.symm,
      lookupA_withUnits, hkf]
    rfl

/-- C5: with accumulation enabled, each profiled field's array restricted to
the used bins becomes its running cumulative sum over the used bins: with a
weight field, the `k`-th used-bin value is
`sum(v_i * w_i, used i ≤ k) / sum(w_i, used i ≤ k)` using only the first
weight component per bin; without one, it is `sum(v_i, used i ≤ k)`; bins
not marked used keep their prior values. -/
theorem profile_accumulation_spec (env : PEnv) (engine : EngineArgs → EngineOut)
    (extrema : (ℚ × ℚ) × String) (x_field : FieldKey) (y_fields : List FieldKey)
    (x_bins : ℕ) (r : (ℚ × ℚ) × String) (x_log : Bool) (weight_field : Option String)
    (P : EngineOut) (kf : FieldKey) (vals : List ℚ)
    (hP : engine ⟨x_field, x_bins, r.1.1, r.1.2, r.2, x_log, weight_field, y_fields⟩ = P)
    (hnd : NodupKeys P.field_data)
    (hkf : lookupA P.field_data kf = some vals)
    (hxf : kf ≠ x_field)
    (hlen : vals.length = P.used.length)
    (hwlen : P.weight.length = P.used.length) :
    ∃ out arr,
      profile env engine extrema x_field y_fields x_bins (some r) x_log
        weight_field true none = .ok out ∧
      lookupA out.fields kf = some arr ∧
      arr.units = env.field_units kf ∧
      (∀ j < vals.length, P.used.getD j false = false →
        arr.values.getD j 0 = vals.getD j 0) ∧
      (∀ k < countTrue P.used,
        (maskSelect arr.values P.used).getD k 0 =
          match weight_field with
          | some _ =>
            ((List.zipWith (· * ·) (maskSelect vals P.used)
                (maskSelect (P.weight.map fun row => row.getD 0 0) P.used)).take (k + 1)).sum /
              ((maskSelect (P.weight.map fun row => row.getD 0 0) P.used).take (k + 1)).sum
          | none => ((maskSelect vals P.used).take (k + 1)).sum) := by
  have hprof : profile env engine extrema x_field y_fields x_bins (some r) x_log
      weight_field true none =
      .ok (storeProfile none P.used (profStoreOf env P x_field weight_field true)) := by
    simp only [profile]
    rw [hP]
  have hndNS : NodupKeys (profStoreOf env P x_field weight_field true) :=
    nodupKeys_profStoreOf env P x_field weight_field true hnd
  have hNS := lookupA_profStoreOf env P x_field kf weight_field true vals hxf hkf
  rw [Bool.cond_true] at hNS
  have hmwlen : (P.weight.map fun row => row.getD 0 0).length = P.used.length := by
    rw [List.length_map]
    exact hwlen
  have hselv : (maskSelect vals P.used).length = countTrue P.used :=
    maskSelect_length (le_of_eq hlen.symm)
  have hselw : (maskSelect (P.weight.map fun row => row.getD 0 0) P.used).length =
      countTrue P.used := maskSelect_length (le_of_eq hmwlen.symm)
  refine ⟨storeProfile none P.used (profStoreOf env P x_field weight_field true),
    ProfArr.mk (accumulateArr weight_field P.used (P.weight.map fun row => row.getD 0 0) vals)
      (env.field_units kf),
    hprof, ?_, rfl, ?_, ?_⟩
  · simp only [storeProfile]
    rw [lookupA_updateA_nil hndNS, hNS]
  · intro j hj hu
    cases weight_field with
    | none => exact maskAssign_getD_of_false hj hu 0
    | some w => exact maskAssign_getD_of_false hj hu 0
  · intro k hk
    cases weight_field with
    | none =>
      have hcs : (cumsum (maskSelect vals P.used)).length = countTrue P.used := by
        rw [cumsum_length, hselv]
      have hsel2 : maskSelect (accumulateArr none P.used
          (P.weight.map fun row => row.getD 0 0) vals) P.used =
          cumsum (maskSelect vals P.used) :=
        maskSelect_maskAssign hlen hcs
      show (maskSelect (accumulateArr none P.used
        (P.weight.map fun row => row.getD 0 0) vals) P.used).getD k 0 = _
      rw [hsel2, cumsum_getD (by rw [hselv]; exact hk)]
    | some w =>
      have hklt : k < (maskSelect vals P.used).length := by rw [hselv]; exact hk
      have hkltw : k < (maskSelect (P.weight.map fun row => row.getD 0 0) P.used).length := by
        rw [hselw]
        exact hk
      have hzlen : (List.zipWith (· * ·) (maskSelect vals P.used)
          (maskSelect (P.weight.map fun row => row.getD 0 0) P.used)).length =
          countTrue P.used := by
        rw [List.length_zipWith, hselv, hselw, min_self]
      have hvslen : (List.zipWith (· / ·)
          (cumsum (List.zipWith (· * ·) (maskSelect vals P.used)
            (maskSelect (P.weight.map fun row => row.getD 0 0) P.used)))
          (cumsum (maskSelect (P.weight.map fun row => row.getD 0 0) P.used))).length =
          countTrue P.used := by
        rw [List.length_zipWith, cumsum_length, cumsum_length, hzlen, hselw, min_self]
      have hsel2 : maskSelect (accumulateArr (some w) P.used
          (P.weight.map fun row => row.getD 0 0) vals) P.used =
          List.zipWith (· / ·)
            (cumsum (List.zipWith (· * ·) (maskSelect vals P.used)
              (maskSelect (P.weight.map fun row => row.getD 0 0) P.used)))
            (cumsum (maskSelect (P.weight.map fun row => row.getD 0 0) P.used)) :=
        maskSelect_maskAssign hlen hvslen
      show (maskSelect (accumulateArr (some w) P.used
        (P.weight.map fun row => row.getD 0 0) vals) P.used).getD k 0 = _
      rw [hsel2,
        zipWith_getD (by rw [cumsum_length, hzlen]; exact hk)
          (by rw [cumsum_length, hselw]; exact hk) 0 0 0,
        cumsum_getD (by rw [hzlen]; exact hk),
        cumsum_getD (by rw [hselw]; exact hk)]

theorem profile_accumulation_spec_witness :
    ((fun _ : EngineArgs => engOutW)
      ⟨(("index", "radius") : FieldKey), 32, 1, 100, "cm", true, some "cell_mass",
        [(("gas", "density") : FieldKey)]⟩ = engOutW) ∧
    NodupKeys engOutW.field_data ∧
    lookupA engOutW.field_data ("gas", "density") = some [3, 4] ∧
    ((("gas", "density") : FieldKey) ≠ (("index", "radius") : FieldKey)) ∧
    ([(3 : ℚ), 4].length = engOutW.used.length) ∧
    (engOutW.weight.length = engOutW.used.length) ∧
    (∃ out arr,
      profile pEnvW (fun _ => engOutW) ((0, 0), "dimensionless") ("index", "radius")
        [(("gas", "density") : FieldKey)] 32 (some ((1, 100), "cm")) true
        (some "cell_mass") true none = .ok out ∧
      lookupA out.fields ("gas", "density") = some arr ∧
      arr.units = pEnvW.field_units ("gas", "density") ∧
      (∀ j < [(3 : ℚ), 4].length, engOutW.used.getD j false = false →
        arr.values.getD j 0 = [(3 : ℚ), 4].getD j 0) ∧
      (∀ k < countTrue engOutW.used,
        (maskSelect arr.values engOutW.used).getD k 0 =
          match some "cell_mass" with
          | some _ =>
            ((List.zipWith (· * ·) (maskSelect [(3 : ℚ), 4] engOutW.used)
                (maskSelect (engOutW.weight.map fun row => row.getD 0 0)
                  engOutW.used)).take (k + 1)).sum /
              ((maskSelect (engOutW.weight.map fun row => row.getD 0 0)
                engOutW.used).take (k + 1)).sum
          | none => ((maskSelect [(3 : ℚ), 4] engOutW.used).take (k + 1)).sum)) :=
  ⟨rfl, by decide, by decide, by decide, by decide, by decide,
    profile_accumulation_spec pEnvW (fun _ => engOutW) ((0, 0), "dimensionless")
      ("index", "radius") [(("gas", "density") : FieldKey)] 32 ((1, 100), "cm") true
      (some "cell_mass") engOutW ("gas", "density") [3, 4]
      rfl (by decide) (by decide) (by decide) (by decide) (by decide)⟩

end HaloCallbacks
